import Mathlib

/-!
Shallow embedding of the document editor's patch synchronization engine.

Text content is modelled as `List Char`; JavaScript's clamping string
primitives (`String.prototype.substring`, `String.prototype.indexOf`,
`startsWith`, `endsWith`) are embedded explicitly so that every
out-of-range index behaves exactly as in the host runtime.

Sections:
  * JS string primitives
  * Change data model (src/server/src/types/document.ts)
  * findOccurrences / applyChanges / applyOperation / isValidChange
    (server utils applyChanges module)
  * document service (updateDocument / applyChangesToDocument /
    publishDocument)
  * change strategy selector (src/client/src/lib/changeStrategy.ts)
  * change buffer state machine (src/client/src/lib/changeBuffer.ts)
-/

namespace DocEditor

/-- Clamp a JS integer index into `[0, len]`, as `String.prototype.substring`
does with its arguments. -/
def clampIdx (len : Nat) (a : Int) : Nat :=
  min (a.toNat) len

/-- JS `s.substring(a, b)`: clamp both arguments into `[0, len]`, swap them
if needed, and return the slice between them. -/
def jsSubstring (s : List Char) (a b : Int) : List Char :=
  let a' := clampIdx s.length a
  let b' := clampIdx s.length b
  (s.drop (min a' b')).take (max a' b' - min a' b')

/-- JS `s.substring(a)` (one-argument form): from the clamped index to the
end of the string. -/
def jsSubstringFrom (s : List Char) (a : Int) : List Char :=
  s.drop (clampIdx s.length a)

/-- JS `s.startsWith(pat)` on list-of-char strings. -/
def listStartsWith (s pat : List Char) : Bool :=
  s.take pat.length == pat

/-- JS `s.endsWith(pat)` on list-of-char strings. -/
def listEndsWith (s pat : List Char) : Bool :=
  s.drop (s.length - pat.length) == pat

/-- One step of JS `content.indexOf(searchText, position)`: scan indices
`i, i+1, ...` (fuel-bounded) and return the first index where `pat` occurs
as a prefix of the remaining text. -/
def scanMatch (content pat : List Char) : Nat → Nat → Option Nat
  | _, 0 => none
  | i, fuel + 1 =>
    if listStartsWith (content.drop i) pat then some i
    else scanMatch content pat (i + 1) fuel

/-- JS `content.indexOf(searchText, position)` (for `position ≤ len`):
the least index `i ≥ position` with `i ≤ len` at which `pat` occurs,
`none` when there is no such index. -/
def jsIndexOf (content pat : List Char) (position : Nat) : Option Nat :=
  scanMatch content pat position (content.length + 1 - position)

lemma scanMatch_some_ge {content pat : List Char} {i fuel idx : Nat}
    (h : scanMatch content pat i fuel = some idx) : i ≤ idx := by
  induction fuel generalizing i with
  | zero => simp [scanMatch] at h
  | succ n ih =>
    rw [scanMatch] at h
    split at h
    · exact (Option.some.injEq _ _ ▸ h) ▸ le_refl i
    · exact le_trans (Nat.le_succ i) (ih h)

lemma jsIndexOf_some_ge {content pat : List Char} {position idx : Nat}
    (h : jsIndexOf content pat position = some idx) : position ≤ idx :=
  scanMatch_some_ge h

/-! ## Change data model -/

/-- The `operation` tag of a Change (`'replace' | 'insert' | 'delete'`). -/
inductive Op
  | replace
  | insert
  | delete
deriving DecidableEq, Repr

/-- `range: { start: number; end: number }`.  `end` is a Lean keyword, so
the second field is written with guillemets. -/
structure Range where
  start : Int
  «end» : Int
deriving DecidableEq, Repr

/-- A Change.  `occurrence?: number` may be absent (`none`), JSON `null`
(`some none`) or a number (`some (some k)`); `contextBefore?`/`contextAfter?`
may be absent (`none`) or a string (`some s`). -/
structure Change where
  operation : Op
  range : Range
  text : List Char
  occurrence : Option (Option Int) := none
  contextBefore : Option (List Char) := none
  contextAfter : Option (List Char) := none
deriving DecidableEq, Repr

/-! ## findOccurrences -/

/-- The `contextBefore` gate of `findOccurrences`: skipped when the field is
absent or the empty string, otherwise JS
`content.substring(max(0, index - cb.length), index).endsWith(cb)`. -/
def contextBeforeOk (content : List Char) (cb : Option (List Char)) (index : Nat) : Bool :=
  match cb with
  | none => true
  | some c =>
    if c = [] then true
    else
      listEndsWith ((content.drop (index - c.length)).take (index - (index - c.length))) c

/-- The `contextAfter` gate of `findOccurrences`: skipped when the field is
absent or the empty string, otherwise JS
`content.substring(index + searchLength, min(len, index + searchLength + ca.length)).startsWith(ca)`. -/
def contextAfterOk (content : List Char) (ca : Option (List Char))
    (index searchLength : Nat) : Bool :=
  match ca with
  | none => true
  | some c =>
    if c = [] then true
    else
      listStartsWith ((content.drop (index + searchLength)).take
        (min content.length (index + searchLength + c.length) - (index + searchLength))) c

/-- The scanning loop of `findOccurrences`: while `position < content.length`,
find the next candidate with `indexOf`, keep it when both context gates pass,
and resume the scan at `candidate + 1`. -/
def findOccurrencesFrom (content searchText : List Char)
    (contextBefore contextAfter : Option (List Char)) (position : Nat) : List Nat :=
  if _h : position < content.length then
    match hidx : jsIndexOf content searchText position with
    | none => []
    | some index =>
      if contextBeforeOk content contextBefore index
          && contextAfterOk content contextAfter index searchText.length then
        index :: findOccurrencesFrom content searchText contextBefore contextAfter (index + 1)
      else
        findOccurrencesFrom content searchText contextBefore contextAfter (index + 1)
  else []
termination_by content.length - position
decreasing_by
  all_goals
    have hge := jsIndexOf_some_ge hidx
    omega

/-- `findOccurrences(content, searchText, contextBefore, contextAfter)`. -/
def findOccurrences (content searchText : List Char)
    (contextBefore contextAfter : Option (List Char)) : List Nat :=
  findOccurrencesFrom content searchText contextBefore contextAfter 0

/-- A candidate position qualifies when the pattern matches there and both
context gates pass. -/
def occurrenceQualifies (content pat : List Char) (cb ca : Option (List Char))
    (i : Nat) : Bool :=
  listStartsWith (content.drop i) pat
    && contextBeforeOk content cb i
    && contextAfterOk content ca i pat.length

/-! ## applyOperation / applyChanges -/

/-- `applyOperation(content, operation, start, end, text)` — the `else`
branch that throws `Unknown operation` is unreachable here because `Op`
is a closed enumeration. -/
def applyOperation (content : List Char) (operation : Op)
    (start stop : Int) (text : List Char) : List Char :=
  match operation with
  | .replace => jsSubstring content 0 start ++ text ++ jsSubstringFrom content stop
  | .insert => jsSubstring content 0 start ++ text ++ jsSubstringFrom content start
  | .delete => jsSubstring content 0 start ++ jsSubstringFrom content stop

/-- Errors thrown by `applyChanges`. -/
inductive ApplyError
  | noMatchingOccurrence
  | invalidOccurrence
deriving DecidableEq, Repr

/-- The `for` loop of the all-occurrences branch: apply the operation at
each found position, iterating from the last position down to the first. -/
def applyAtAll (content : List Char) (operation : Op) (text : List Char)
    (searchLength : Nat) (occurrences : List Nat) : List Char :=
  occurrences.reverse.foldl
    (fun acc (occStart : Nat) =>
      applyOperation acc operation (occStart : Int) ((occStart : Int) + (searchLength : Int)) text)
    content

/-- The `searchText` extracted in occurrence/context mode:
`updatedContent.substring(range.start + cumulativeOffset, range.end + cumulativeOffset)`. -/
def searchPattern (content : List Char) (cumulativeOffset : Int) (change : Change) : List Char :=
  jsSubstring content (change.range.start + cumulativeOffset)
    (change.range.end + cumulativeOffset)

/-- The occurrence list computed in occurrence/context mode. -/
def foundOccurrences (content : List Char) (cumulativeOffset : Int) (change : Change) : List Nat :=
  findOccurrences content (searchPattern content cumulativeOffset change)
    change.contextBefore change.contextAfter

/-- The result of `applyOperation` in positional mode, at the
offset-adjusted range. -/
def positionalResult (content : List Char) (cumulativeOffset : Int) (change : Change) : List Char :=
  applyOperation content change.operation
    (change.range.start + cumulativeOffset) (change.range.end + cumulativeOffset) change.text

/-- The body of the `for (const change of changes)` loop of `applyChanges`:
process one change against the current content and cumulative offset,
returning the new content and offset or the thrown error. -/
def applyChangeStep (content : List Char) (cumulativeOffset : Int)
    (change : Change) : Except ApplyError (List Char × Int) :=
  if change.occurrence ≠ none ∨ change.contextBefore ≠ none ∨ change.contextAfter ≠ none then
    if (foundOccurrences content cumulativeOffset change).length = 0 then
      .error .noMatchingOccurrence
    else
      match change.occurrence with
      | none | some none =>
        .ok (applyAtAll content change.operation change.text
          (searchPattern content cumulativeOffset change).length
          (foundOccurrences content cumulativeOffset change), 0)
      | some (some k) =>
        if k = -1 then
          .ok (applyAtAll content change.operation change.text
            (searchPattern content cumulativeOffset change).length
            (foundOccurrences content cumulativeOffset change), 0)
        else if 0 < k ∧ k ≤ (foundOccurrences content cumulativeOffset change).length then
          .ok (applyOperation content change.operation
            (((foundOccurrences content cumulativeOffset change).getD (k - 1).toNat 0 : Nat) : Int)
            ((((foundOccurrences content cumulativeOffset change).getD (k - 1).toNat 0 : Nat) : Int)
              + ((searchPattern content cumulativeOffset change).length : Int)) change.text, 0)
        else
          .error .invalidOccurrence
  else
    .ok (positionalResult content cumulativeOffset change,
      cumulativeOffset + (((positionalResult content cumulativeOffset change).length : Int)
        - (content.length : Int)))

/-- The loop of `applyChanges`, carrying the current content and the
cumulative offset. -/
def applyChangesLoop (content : List Char) (cumulativeOffset : Int) :
    List Change → Except ApplyError (List Char)
  | [] => .ok content
  | change :: rest =>
    match applyChangeStep content cumulativeOffset change with
    | .error e => .error e
    | .ok (updated, offset) => applyChangesLoop updated offset rest

/-- `applyChanges(content, changes)`. -/
def applyChanges (content : List Char) (changes : List Change) :
    Except ApplyError (List Char) :=
  applyChangesLoop content 0 changes

/-- `isValidChange(change)` restricted to well-typed `Change` values: the
dynamic shape checks (object-ness, field types, operation tag membership)
hold by typing; what remains is the constraint on the optional
`occurrence` field: when present it must be a number (`typeof occurrence
!== 'number'` rejects JSON `null`) that is `-1` or `≥ 1`.  Notably no
relation between `range.start` and `range.end` is checked. -/
def isValidChange (change : Change) : Bool :=
  match change.occurrence with
  | none => true
  | some none => false
  | some (some k) => k == -1 || k ≥ 1

/-! ## Document service

The fingerprint (`generateETag`) is a truncated SHA-256 digest of
`content:version:updatedAt`; the digest itself is kept abstract as a
parameter `etagFn : content → version → now → etag`, and the clock value
as a parameter `now`. -/

/-- A stored document row: content, version and fingerprint. -/
structure Document where
  content : List Char
  version : Int
  etag : List Char
deriving DecidableEq, Repr

/-- An immutable published snapshot `(version, content)` of a document. -/
structure PublishedSnapshot where
  version : Int
  content : List Char
deriving DecidableEq, Repr

/-- Errors surfaced by the document service on a patch / update request. -/
inductive ServiceError
  | invalidChangeFormat
  | versionConflict
  | etagMismatch
  | applyFailed (e : ApplyError)
deriving DecidableEq, Repr

/-- `expectedVersion !== undefined && currentDoc.version !== expectedVersion`. -/
def versionCheckFails (document : Document) (expectedVersion : Option Int) : Bool :=
  match expectedVersion with
  | some v => document.version != v
  | none => false

/-- `expectedETag !== undefined && currentDoc.etag !== expectedETag`. -/
def etagCheckFails (document : Document) (expectedETag : Option (List Char)) : Bool :=
  match expectedETag with
  | some t => document.etag != t
  | none => false

/-- `documentService.applyChangesToDocument`: validate every change, check
the version precondition, check the ETag precondition, apply the changes,
and store the new content together with an ETag recomputed against the
unchanged version. -/
def applyChangesToDocument (etagFn : List Char → Int → Nat → List Char) (now : Nat)
    (document : Document) (changes : List Change)
    (expectedVersion : Option Int) (expectedETag : Option (List Char)) :
    Except ServiceError Document :=
  if ¬ changes.all isValidChange then
    .error .invalidChangeFormat
  else if versionCheckFails document expectedVersion then
    .error .versionConflict
  else if etagCheckFails document expectedETag then
    .error .etagMismatch
  else
    match applyChanges document.content changes with
    | .error e => .error (.applyFailed e)
    | .ok updatedContent =>
      .ok { content := updatedContent,
            version := document.version,
            etag := etagFn updatedContent document.version now }

/-- `documentService.updateDocument` (full replacement): check the version
precondition, check the ETag precondition, replace the content when one is
supplied, recompute the ETag against the unchanged version. -/
def updateDocument (etagFn : List Char → Int → Nat → List Char) (now : Nat)
    (document : Document) (newContent : Option (List Char))
    (expectedVersion : Option Int) (expectedETag : Option (List Char)) :
    Except ServiceError Document :=
  if versionCheckFails document expectedVersion then
    .error .versionConflict
  else if etagCheckFails document expectedETag then
    .error .etagMismatch
  else
    let content := newContent.getD document.content
    .ok { content := content,
          version := document.version,
          etag := etagFn content document.version now }

/-- `documentService.publishDocument`: snapshot the current
`(version, content)`, then move the document to `version + 1` with an ETag
recomputed against the new version; the content is untouched. -/
def publishDocument (etagFn : List Char → Int → Nat → List Char) (now : Nat)
    (document : Document) : PublishedSnapshot × Document :=
  let publishedVersion := document.version
  let nextWorkingVersion := document.version + 1
  let newETag := etagFn document.content nextWorkingVersion now
  ({ version := publishedVersion, content := document.content },
   { content := document.content, version := nextWorkingVersion, etag := newETag })

/-! ## Change strategy selector (src/client/src/lib/changeStrategy.ts) -/

/-- `ChangeContext`: the optional fields may be `undefined` in TS, hence
`Option` here; the numeric fields keep JS truthiness behavior. -/
structure ChangeContext where
  documentContent : List Char
  selection : Range
  isCollaborative : Option Bool := none
  hasRecentRemoteChanges : Option Bool := none
  queueLength : Option Int := none
  timeSinceLastSync : Option Int := none

/-- `'range-based' | 'content-based'`. -/
inductive ChangeStrategy
  | rangeBased
  | contentBased
deriving DecidableEq, Repr

/-- JS truthiness of an optional boolean (`undefined` is falsy). -/
def truthyBool : Option Bool → Bool
  | some b => b
  | none => false

/-- The scanning loop of `countOccurrences`. -/
def countOccurrencesFrom (content pattern : List Char) (position : Nat) : Nat :=
  if _h : position < content.length then
    match hidx : jsIndexOf content pattern position with
    | none => 0
    | some index => 1 + countOccurrencesFrom content pattern (index + 1)
  else 0
termination_by content.length - position
decreasing_by
  have hge := jsIndexOf_some_ge hidx
  omega

/-- `countOccurrences(content, pattern)`: 0 for the empty pattern, else the
number of (overlap-counting) matches found by the scan. -/
def countOccurrences (content pattern : List Char) : Nat :=
  if pattern.length = 0 then 0 else countOccurrencesFrom content pattern 0

/-- `context.queueLength && context.queueLength >= 3` under JS truthiness. -/
def queueLengthRule (q : Option Int) : Bool :=
  match q with
  | some n => n != 0 && decide (n ≥ 3)
  | none => false

/-- `context.timeSinceLastSync && context.timeSinceLastSync >= 2000`
under JS truthiness. -/
def staleSyncRule (t : Option Int) : Bool :=
  match t with
  | some n => n != 0 && decide (n ≥ 2000)
  | none => false

/-- `determineChangeStrategy(context)`: the ordered heuristic chain. -/
def determineChangeStrategy (context : ChangeContext) : ChangeStrategy :=
  let selectedText := jsSubstring context.documentContent
    context.selection.start context.selection.end
  if selectedText.length = 0 then .rangeBased
  else if truthyBool context.hasRecentRemoteChanges then .contentBased
  else if queueLengthRule context.queueLength then .contentBased
  else if staleSyncRule context.timeSinceLastSync then .contentBased
  else if countOccurrences context.documentContent selectedText > 1 then .contentBased
  else if truthyBool context.isCollaborative then .contentBased
  else .rangeBased

/-! ## Change buffer (src/client/src/lib/changeBuffer.ts)

Modelled as an explicit state machine.  The two `setTimeout` handles are
tracked as armed/disarmed flags; a `flushCall` event is the synchronous
prefix of `flush()` (either timer firing, or `flush`/`forceFlush` invoked
directly) up to and including the network dispatch; a `flushResolve` event
is the resumption of one in-flight `saveDocumentChanges` call with its
outcome.  `inFlight` counts dispatches whose response is still pending and
`dispatched` logs every request ever sent. -/

/-- One dispatched `saveDocumentChanges` request: the change list and the
ETag precondition sent with it. -/
structure BufferRequest where
  changes : List Change
  expectedETag : Option (List Char)
deriving DecidableEq, Repr

/-- The mutable fields of `ChangeBuffer`, plus the `inFlight` count and the
`dispatched` log used to observe the network behavior. -/
structure BufferState where
  idleTimerArmed : Bool
  maxWaitTimerArmed : Bool
  isFlushInProgress : Bool
  currentEditorContent : List Char
  lastSavedContent : List Char
  hasUnflushedChanges : Bool
  currentETag : Option (List Char)
  hasRecentRemoteChanges : Bool
  inFlight : Nat
  dispatched : List BufferRequest
deriving DecidableEq, Repr

/-- A fresh buffer after `new ChangeBuffer(...)` + `initializeContent`. -/
def initBufferState (content : List Char) : BufferState :=
  { idleTimerArmed := false
    maxWaitTimerArmed := false
    isFlushInProgress := false
    currentEditorContent := content
    lastSavedContent := content
    hasUnflushedChanges := false
    currentETag := none
    hasRecentRemoteChanges := false
    inFlight := 0
    dispatched := [] }

/-- `addChange(_change, currentContent)`: record the editor state; when a
flush is in progress just return, otherwise re-arm the idle timer and arm
the max-wait timer if it is not already running. -/
def addChange (s : BufferState) (currentContent : List Char) : BufferState :=
  let s := { s with currentEditorContent := currentContent, hasUnflushedChanges := true }
  if s.isFlushInProgress then s
  else { s with idleTimerArmed := true, maxWaitTimerArmed := true }

/-- The single coalesced change `flush()` constructs:
`Replace([0, lastSavedContent.length), currentEditorContent)`. -/
def coalescedChange (s : BufferState) : Change :=
  { operation := .replace
    range := { start := 0, «end» := (s.lastSavedContent.length : Int) }
    text := s.currentEditorContent }

/-- `this.currentETag || undefined`: a null (or JS-falsy empty-string) ETag
is sent as `undefined`. -/
def etagPrecondition : Option (List Char) → Option (List Char)
  | some t => if t = [] then none else some t
  | none => none

/-- The synchronous prefix of `flush()`: clear both timers; if there is
nothing unflushed, return; otherwise build the single coalesced change,
mark the flush in progress and dispatch.  Note there is no gate on
`isFlushInProgress` here. -/
def flushCall (s : BufferState) : BufferState :=
  let s := { s with idleTimerArmed := false, maxWaitTimerArmed := false }
  if ¬ s.hasUnflushedChanges then s
  else
    { s with isFlushInProgress := true
             hasUnflushedChanges := false
             inFlight := s.inFlight + 1
             dispatched := s.dispatched ++
               [{ changes := [coalescedChange s],
                  expectedETag := etagPrecondition s.currentETag }] }

/-- The outcome of one in-flight `saveDocumentChanges` call. -/
inductive FlushOutcome
  | success (doc : Document)
  | conflictFailure
  | otherFailure
deriving DecidableEq, Repr

/-- The resumption of `flush()` after the awaited call settles: on success
adopt the response's ETag and content as the new baseline and, when the
editor diverged meanwhile, re-arm a short follow-up idle timer; on a
conflict (409) only the callbacks fire; on any other failure mark the
changes unflushed again.  The `finally` block clears `isFlushInProgress`. -/
def flushResolve (s : BufferState) (outcome : FlushOutcome) : BufferState :=
  let s' :=
    match outcome with
    | .success doc =>
      let s := { s with currentETag := some doc.etag
                        lastSavedContent := doc.content
                        hasRecentRemoteChanges := false }
      if s.currentEditorContent ≠ doc.content then
        { s with hasUnflushedChanges := true, idleTimerArmed := true }
      else s
    | .conflictFailure => s
    | .otherFailure => { s with hasUnflushedChanges := true }
  { s' with isFlushInProgress := false, inFlight := s'.inFlight - 1 }

/-- Externally visible buffer events. -/
inductive BufferEvent
  | addChange (content : List Char)
  | flushCall
  | flushResolve (outcome : FlushOutcome)
deriving DecidableEq, Repr

/-- One step of the buffer state machine. -/
def bufferStep (s : BufferState) : BufferEvent → BufferState
  | .addChange content => addChange s content
  | .flushCall => flushCall s
  | .flushResolve outcome => flushResolve s outcome

/-- Run a sequence of buffer events. -/
def bufferRun (s : BufferState) (events : List BufferEvent) : BufferState :=
  events.foldl bufferStep s

/-! # Lemmas: the scan of `findOccurrences` collects exactly the qualifying
positions, in ascending order -/

lemma listStartsWith_nil (s : List Char) : listStartsWith s [] = true := by
  simp [listStartsWith]

lemma listStartsWith_length_le {s pat : List Char}
    (h : listStartsWith s pat = true) : pat.length ≤ s.length := by
  unfold listStartsWith at h
  have he := beq_iff_eq.mp h
  have hl := congrArg List.length he
  rw [List.length_take] at hl
  omega

lemma scanMatch_spec_some {content pat : List Char} {fuel i idx : Nat}
    (h : scanMatch content pat i fuel = some idx) :
    listStartsWith (content.drop idx) pat = true ∧ idx < i + fuel ∧
      ∀ j, i ≤ j → j < idx → listStartsWith (content.drop j) pat = false := by
  induction fuel generalizing i with
  | zero => simp [scanMatch] at h
  | succ n ih =>
    rw [scanMatch] at h
    by_cases hs : listStartsWith (content.drop i) pat = true
    · rw [if_pos hs] at h
      obtain rfl : i = idx := Option.some.inj h
      exact ⟨hs, by omega, fun j hj1 hj2 => absurd hj1 (by omega)⟩
    · rw [if_neg hs] at h
      obtain ⟨h1, h2, h3⟩ := ih h
      refine ⟨h1, by omega, fun j hj1 hj2 => ?_⟩
      rcases Nat.eq_or_lt_of_le hj1 with rfl | hj
      · simpa using hs
      · exact h3 j hj hj2

lemma scanMatch_spec_none {content pat : List Char} {fuel i : Nat}
    (h : scanMatch content pat i fuel = none) :
    ∀ j, i ≤ j → j < i + fuel → listStartsWith (content.drop j) pat = false := by
  induction fuel generalizing i with
  | zero => intro j h1 h2; omega
  | succ n ih =>
    rw [scanMatch] at h
    by_cases hs : listStartsWith (content.drop i) pat = true
    · rw [if_pos hs] at h; exact absurd h (by simp)
    · rw [if_neg hs] at h
      intro j hj1 hj2
      rcases Nat.eq_or_lt_of_le hj1 with rfl | hj
      · simpa using hs
      · exact ih h j hj (by omega)

lemma jsIndexOf_spec_some {content pat : List Char} {position idx : Nat}
    (h : jsIndexOf content pat position = some idx) :
    position ≤ idx ∧ idx ≤ content.length ∧
      listStartsWith (content.drop idx) pat = true ∧
      ∀ j, position ≤ j → j < idx → listStartsWith (content.drop j) pat = false := by
  have hge := jsIndexOf_some_ge h
  obtain ⟨h1, h2, h3⟩ := scanMatch_spec_some h
  exact ⟨hge, by omega, h1, h3⟩

lemma jsIndexOf_spec_none {content pat : List Char} {position : Nat}
    (h : jsIndexOf content pat position = none) :
    ∀ j, position ≤ j → j ≤ content.length →
      listStartsWith (content.drop j) pat = false := by
  intro j h1 h2
  exact scanMatch_spec_none h j h1 (by omega)

lemma findOccurrencesFrom_eq_filter (content pat : List Char)
    (cb ca : Option (List Char)) :
    ∀ pos, findOccurrencesFrom content pat cb ca pos
      = (List.range' pos (content.length - pos)).filter
          (occurrenceQualifies content pat cb ca) := by
  have main : ∀ n pos, content.length - pos = n →
      findOccurrencesFrom content pat cb ca pos
        = (List.range' pos (content.length - pos)).filter
            (occurrenceQualifies content pat cb ca) := by
    intro n
    induction n using Nat.strong_induction_on with
    | _ n ih =>
      intro pos hn
      rw [findOccurrencesFrom]
      by_cases hpos : pos < content.length
      · rw [dif_pos hpos]
        split
        next heq =>
          symm
          rw [List.filter_eq_nil_iff]
          intro j hj
          rw [List.mem_range'_1] at hj
          have hno := jsIndexOf_spec_none heq j hj.1 (by omega)
          simp [occurrenceQualifies, hno]
        next idx heq =>
          obtain ⟨hge, hle, hmatch, hmin⟩ := jsIndexOf_spec_some heq
          have hidxlt : idx < content.length := by
            by_cases hpe : pat = []
            · subst hpe
              have hnotlt : ¬ (pos < idx) := fun hlt => by
                have hc := hmin pos (le_refl pos) hlt
                simp [listStartsWith_nil] at hc
              omega
            · have hlen := listStartsWith_length_le hmatch
              rw [List.length_drop] at hlen
              have hp : 0 < pat.length := List.length_pos.mpr hpe
              omega
          have hsplit : List.range' pos (content.length - pos)
              = List.range' pos (idx - pos) ++ List.range' idx (content.length - idx) := by
            have happ := List.range'_append pos (idx - pos) (content.length - idx) 1
            rw [show pos + 1 * (idx - pos) = idx by omega] at happ
            rw [show content.length - idx + (idx - pos) = content.length - pos by omega] at happ
            exact happ.symm
          rw [hsplit, List.filter_append]
          have hfirst : (List.range' pos (idx - pos)).filter
              (occurrenceQualifies content pat cb ca) = [] := by
            rw [List.filter_eq_nil_iff]
            intro j hj
            rw [List.mem_range'_1] at hj
            have hno := hmin j hj.1 (by omega)
            simp [occurrenceQualifies, hno]
          rw [hfirst, List.nil_append]
          rw [show content.length - idx = (content.length - (idx + 1)) + 1 by omega,
            List.range'_succ]
          have hrec := ih (content.length - (idx + 1)) (by omega) (idx + 1) rfl
          by_cases hg : (contextBeforeOk content cb idx
              && contextAfterOk content ca idx pat.length) = true
          · rw [if_pos hg, List.filter_cons_of_pos]
            · rw [hrec]
            · simp only [occurrenceQualifies]
              simp only [Bool.and_eq_true] at hg ⊢
              exact ⟨⟨hmatch, hg.1⟩, hg.2⟩
          · rw [if_neg hg, List.filter_cons_of_neg]
            · rw [hrec]
            · simp only [occurrenceQualifies]
              intro hq
              simp only [Bool.and_eq_true] at hq hg
              exact hg ⟨hq.1.2, hq.2⟩
      · rw [dif_neg hpos]
        rw [show content.length - pos = 0 by omega]
        simp
  exact fun pos => main (content.length - pos) pos rfl

lemma findOccurrences_eq_filter (content pat : List Char)
    (cb ca : Option (List Char)) :
    findOccurrences content pat cb ca
      = (List.range content.length).filter (occurrenceQualifies content pat cb ca) := by
  unfold findOccurrences
  rw [findOccurrencesFrom_eq_filter, List.range_eq_range', Nat.sub_zero]

lemma findOccurrences_pairwise (content pat : List Char)
    (cb ca : Option (List Char)) :
    (findOccurrences content pat cb ca).Pairwise (· < ·) := by
  rw [findOccurrences_eq_filter]
  exact List.Pairwise.sublist (List.filter_sublist _) (List.pairwise_lt_range _)

lemma mem_findOccurrences_iff (content pat : List Char)
    (cb ca : Option (List Char)) (i : Nat) :
    i ∈ findOccurrences content pat cb ca
      ↔ i < content.length ∧ occurrenceQualifies content pat cb ca i = true := by
  rw [findOccurrences_eq_filter, List.mem_filter, List.mem_range]

lemma listStartsWith_prefix_iff {s pat : List Char} :
    listStartsWith s pat = true ↔ pat <+: s := by
  unfold listStartsWith
  rw [beq_iff_eq, List.prefix_iff_eq_take]
  exact eq_comm

lemma listStartsWith_take_iff {s c : List Char} :
    listStartsWith (s.take c.length) c = true ↔ c <+: s := by
  unfold listStartsWith
  rw [List.take_take, beq_iff_eq, List.prefix_iff_eq_take]
  rw [min_self]
  exact eq_comm

lemma contextBeforeOk_iff {content : List Char} {cb : Option (List Char)} {i : Nat}
    (hi : i ≤ content.length) :
    contextBeforeOk content cb i = true
      ↔ ∀ c, cb = some c → c ≠ [] → c <:+ content.take i := by
  cases cb with
  | none => simp [contextBeforeOk]
  | some c =>
    by_cases hc : c = []
    · subst hc; simp [contextBeforeOk]
    · rw [contextBeforeOk, if_neg hc]
      have htl : (content.take i).length = i := by
        rw [List.length_take]; omega
      have hA : (content.drop (i - c.length)).take (i - (i - c.length))
          = (content.take i).drop (i - c.length) :=
        (List.drop_take i (i - c.length) content).symm
      rw [hA]
      unfold listEndsWith
      have hd0 : ((content.take i).drop (i - c.length)).length - c.length = 0 := by
        rw [List.length_drop, htl]; omega
      rw [hd0, List.drop_zero, beq_iff_eq]
      constructor
      · intro h c' hc' _hne
        obtain rfl : c = c' := Option.some.inj hc'
        rw [List.suffix_iff_eq_drop, htl]
        exact h.symm
      · intro h
        have hs := h c rfl hc
        rw [List.suffix_iff_eq_drop, htl] at hs
        exact hs.symm

lemma contextAfterOk_iff {content : List Char} {ca : Option (List Char)} {i plen : Nat} :
    contextAfterOk content ca i plen = true
      ↔ ∀ c, ca = some c → c ≠ [] → c <+: content.drop (i + plen) := by
  cases ca with
  | none => simp [contextAfterOk]
  | some c =>
    by_cases hc : c = []
    · subst hc; simp [contextAfterOk]
    · rw [contextAfterOk, if_neg hc]
      have hDD : (content.drop (i + plen)).take
            (min content.length (i + plen + c.length) - (i + plen))
          = (content.drop (i + plen)).take c.length := by
        rw [List.take_eq_take, List.length_drop]
        omega
      rw [hDD, listStartsWith_take_iff]
      constructor
      · intro h c' hc' _hne
        obtain rfl : c = c' := Option.some.inj hc'
        exact h
      · intro h
        exact h c rfl hc

/-! # Claim theorems -/

lemma occurrenceQualifies_iff {content pat : List Char} {cb ca : Option (List Char)} {i : Nat}
    (hi : i ≤ content.length) :
    occurrenceQualifies content pat cb ca i = true
      ↔ pat <+: content.drop i
        ∧ (∀ c, cb = some c → c ≠ [] → c <:+ content.take i)
        ∧ (∀ c, ca = some c → c ≠ [] → c <+: content.drop (i + pat.length)) := by
  unfold occurrenceQualifies
  simp only [Bool.and_eq_true]
  rw [listStartsWith_prefix_iff, contextBeforeOk_iff hi, contextAfterOk_iff]
  tauto

lemma applyChangesLoop_cons_ok {content updated : List Char} {cumOff offset : Int}
    {change : Change} {rest : List Change}
    (h : applyChangeStep content cumOff change = .ok (updated, offset)) :
    applyChangesLoop content cumOff (change :: rest) = applyChangesLoop updated offset rest := by
  simp [applyChangesLoop, h]

lemma applyChangesLoop_cons_error {content : List Char} {cumOff : Int}
    {change : Change} {rest : List Change} {e : ApplyError}
    (h : applyChangeStep content cumOff change = .error e) :
    applyChangesLoop content cumOff (change :: rest) = .error e := by
  simp [applyChangesLoop, h]

lemma applyChangeStep_allOccurrences (content : List Char) (cumulativeOffset : Int) (change : Change)
    (hmode : change.occurrence ≠ none ∨ change.contextBefore ≠ none ∨ change.contextAfter ≠ none)
    (hocc : change.occurrence = none ∨ change.occurrence = some none
      ∨ change.occurrence = some (some (-1)))
    (hne : foundOccurrences content cumulativeOffset change ≠ []) :
    applyChangeStep content cumulativeOffset change
      = .ok (applyAtAll content change.operation change.text
          (searchPattern content cumulativeOffset change).length
          (foundOccurrences content cumulativeOffset change), 0) := by
  unfold applyChangeStep
  rw [if_pos hmode, if_neg (by simpa [List.length_eq_zero] using hne)]
  rcases hocc with h | h | h <;> simp [h]

lemma applyAtAll_eq_foldr (content : List Char) (op : Op) (text : List Char)
    (searchLength : Nat) (occurrences : List Nat) :
    applyAtAll content op text searchLength occurrences
      = occurrences.foldr (fun (occStart : Nat) acc =>
          applyOperation acc op (occStart : Int)
            ((occStart : Int) + (searchLength : Int)) text) content := by
  unfold applyAtAll
  rw [List.foldl_reverse]

/-- C1: in occurrence/context mode the search pattern is extracted from the
current text at the offset-adjusted range; the scan collects, in ascending
order, exactly the positions below the content length where the pattern
matches, `contextBefore` (when present and non-empty) is a suffix of the
preceding characters and `contextAfter` a prefix of the characters
following the match; and when `occurrence` is absent, null or -1 the
operation is applied at every qualifying position from the rightmost to
the leftmost, after which the cumulative offset is reset to 0 for the
remaining changes. -/
theorem c1_occurrence_context_matching
    (content : List Char) (cumulativeOffset : Int) (change : Change) (rest : List Change)
    (hmode : change.occurrence ≠ none ∨ change.contextBefore ≠ none
      ∨ change.contextAfter ≠ none) :
    (∀ i, i ∈ foundOccurrences content cumulativeOffset change
      ↔ i < content.length
        ∧ searchPattern content cumulativeOffset change <+: content.drop i
        ∧ (∀ c, change.contextBefore = some c → c ≠ [] → c <:+ content.take i)
        ∧ (∀ c, change.contextAfter = some c → c ≠ [] →
            c <+: content.drop (i + (searchPattern content cumulativeOffset change).length)))
    ∧ (foundOccurrences content cumulativeOffset change).Pairwise (· < ·)
    ∧ ((change.occurrence = none ∨ change.occurrence = some none
          ∨ change.occurrence = some (some (-1))) →
        foundOccurrences content cumulativeOffset change ≠ [] →
        applyChangesLoop content cumulativeOffset (change :: rest)
          = applyChangesLoop
              ((foundOccurrences content cumulativeOffset change).foldr
                (fun (occStart : Nat) acc => applyOperation acc change.operation (occStart : Int)
                  ((occStart : Int)
                    + ((searchPattern content cumulativeOffset change).length : Int))
                  change.text) content)
              0 rest) := by
  refine ⟨?_, ?_, ?_⟩
  · intro i
    unfold foundOccurrences
    rw [mem_findOccurrences_iff]
    constructor
    · rintro ⟨hlt, hq⟩
      exact ⟨hlt, (occurrenceQualifies_iff (le_of_lt hlt)).mp hq⟩
    · rintro ⟨hlt, hq⟩
      exact ⟨hlt, (occurrenceQualifies_iff (le_of_lt hlt)).mpr hq⟩
  · exact findOccurrences_pairwise _ _ _ _
  · intro hocc hne
    rw [applyChangesLoop_cons_ok (applyChangeStep_allOccurrences content cumulativeOffset
      change hmode hocc hne)]
    rw [applyAtAll_eq_foldr]

lemma applyChangeStep_positional (content : List Char) (cumulativeOffset : Int) (change : Change)
    (h1 : change.occurrence = none) (h2 : change.contextBefore = none)
    (h3 : change.contextAfter = none) :
    applyChangeStep content cumulativeOffset change
      = .ok (positionalResult content cumulativeOffset change,
          cumulativeOffset + (((positionalResult content cumulativeOffset change).length : Int)
            - (content.length : Int))) := by
  unfold applyChangeStep
  rw [if_neg (by simp [h1, h2, h3])]

lemma applyChangeStep_noMatch (content : List Char) (cumulativeOffset : Int) (change : Change)
    (hmode : change.occurrence ≠ none ∨ change.contextBefore ≠ none
      ∨ change.contextAfter ≠ none)
    (hempty : foundOccurrences content cumulativeOffset change = []) :
    applyChangeStep content cumulativeOffset change = .error .noMatchingOccurrence := by
  unfold applyChangeStep
  rw [if_pos hmode, if_pos (by simp [hempty])]

lemma applyChangeStep_single (content : List Char) (cumulativeOffset : Int) (change : Change)
    {k : Int} (hocc : change.occurrence = some (some k)) (hk : k ≠ -1)
    (hik : 0 < k ∧ k ≤ (foundOccurrences content cumulativeOffset change).length) :
    applyChangeStep content cumulativeOffset change
      = .ok (applyOperation content change.operation
          (((foundOccurrences content cumulativeOffset change).getD (k - 1).toNat 0 : Nat) : Int)
          ((((foundOccurrences content cumulativeOffset change).getD (k - 1).toNat 0 : Nat) : Int)
            + ((searchPattern content cumulativeOffset change).length : Int)) change.text, 0) := by
  have hlen : ¬ ((foundOccurrences content cumulativeOffset change).length = 0) := by
    obtain ⟨ha, hb⟩ := hik
    omega
  unfold applyChangeStep
  rw [if_pos (Or.inl (by simp [hocc])), if_neg hlen]
  simp only [hocc]
  rw [if_neg hk, if_pos hik]

lemma applyChangeStep_invalid (content : List Char) (cumulativeOffset : Int) (change : Change)
    {k : Int} (hocc : change.occurrence = some (some k)) (hk : k ≠ -1)
    (hik : ¬ (0 < k ∧ k ≤ (foundOccurrences content cumulativeOffset change).length))
    (hne : foundOccurrences content cumulativeOffset change ≠ []) :
    applyChangeStep content cumulativeOffset change = .error .invalidOccurrence := by
  unfold applyChangeStep
  rw [if_pos (Or.inl (by simp [hocc])), if_neg (by simpa [List.length_eq_zero] using hne)]
  simp only [hocc]
  rw [if_neg hk, if_neg hik]

/-- C2: a change with no occurrence/context fields is resolved positionally
at `range.start + cumulativeOffset`/`range.end + cumulativeOffset`, and the
whole-text length delta is added to the cumulative offset; consequently the
Replace/Insert/Delete sequence of the spec's example produces
"The slow lazy brown fo". -/
theorem c2_positional_cumulative_offset :
    (∀ (content : List Char) (cumulativeOffset : Int) (change : Change) (rest : List Change),
      change.occurrence = none → change.contextBefore = none → change.contextAfter = none →
      applyChangesLoop content cumulativeOffset (change :: rest)
        = applyChangesLoop
            (applyOperation content change.operation (change.range.start + cumulativeOffset)
              (change.range.end + cumulativeOffset) change.text)
            (cumulativeOffset
              + (((applyOperation content change.operation (change.range.start + cumulativeOffset)
                    (change.range.end + cumulativeOffset) change.text).length : Int)
                - (content.length : Int)))
            rest)
    ∧ applyChanges "The quick brown fox".toList
        [ { operation := .replace, range := { start := 4, «end» := 9 }, text := "slow".toList },
          { operation := .insert, range := { start := 10, «end» := 10 }, text := "lazy ".toList },
          { operation := .delete, range := { start := 18, «end» := 19 }, text := "".toList } ]
        = .ok "The slow lazy brown fo".toList := by
  constructor
  · intro content cumOff change rest h1 h2 h3
    rw [applyChangesLoop_cons_ok (applyChangeStep_positional content cumOff change h1 h2 h3)]
    rfl
  · rfl

/-- C3: in occurrence/context mode the step fails with
`NoMatchingOccurrence` exactly when no position qualifies, fails with
`InvalidOccurrence` exactly when some positions qualify but a numeric
occurrence other than -1 lies outside `1..count`, and an erroring step
aborts the whole sequence with that error, producing no result. -/
theorem c3_occurrence_errors
    (content : List Char) (cumulativeOffset : Int) (change : Change) (rest : List Change)
    (hmode : change.occurrence ≠ none ∨ change.contextBefore ≠ none
      ∨ change.contextAfter ≠ none) :
    (applyChangeStep content cumulativeOffset change = .error .noMatchingOccurrence
      ↔ foundOccurrences content cumulativeOffset change = [])
    ∧ (applyChangeStep content cumulativeOffset change = .error .invalidOccurrence
      ↔ foundOccurrences content cumulativeOffset change ≠ []
        ∧ ∃ k, change.occurrence = some (some k) ∧ k ≠ -1
            ∧ ¬ (1 ≤ k ∧ k ≤ (foundOccurrences content cumulativeOffset change).length))
    ∧ (∀ e, applyChangeStep content cumulativeOffset change = .error e →
        applyChangesLoop content cumulativeOffset (change :: rest) = .error e) := by
  by_cases hempty : foundOccurrences content cumulativeOffset change = []
  · have hstep := applyChangeStep_noMatch content cumulativeOffset change hmode hempty
    refine ⟨by simp [hstep, hempty], by simp [hstep, hempty], ?_⟩
    intro e he
    rw [hstep] at he
    injection he with h
    subst h
    exact applyChangesLoop_cons_error hstep
  · match hocc : change.occurrence with
    | none =>
      have hstep := applyChangeStep_allOccurrences content cumulativeOffset change hmode
        (Or.inl hocc) hempty
      refine ⟨by simp [hstep, hempty], by simp [hstep, hocc], ?_⟩
      intro e he
      rw [hstep] at he
      exact absurd he (by simp)
    | some none =>
      have hstep := applyChangeStep_allOccurrences content cumulativeOffset change hmode
        (Or.inr (Or.inl hocc)) hempty
      refine ⟨by simp [hstep, hempty], by simp [hstep, hocc], ?_⟩
      intro e he
      rw [hstep] at he
      exact absurd he (by simp)
    | some (some k) =>
      by_cases hk : k = -1
      · subst hk
        have hstep := applyChangeStep_allOccurrences content cumulativeOffset change hmode
          (Or.inr (Or.inr hocc)) hempty
        refine ⟨by simp [hstep, hempty], ?_, ?_⟩
        · rw [hstep]
          constructor
          · intro hcontr
            exact absurd hcontr (by simp)
          · rintro ⟨-, k', hk', hkne, -⟩
            injection hk' with h1
            injection h1 with h2
            exact absurd h2.symm hkne
        · intro e he
          rw [hstep] at he
          exact absurd he (by simp)
      · by_cases hik : 0 < k ∧ k ≤ (foundOccurrences content cumulativeOffset change).length
        · have hstep := applyChangeStep_single content cumulativeOffset change hocc hk hik
          refine ⟨by simp [hstep, hempty], ?_, ?_⟩
          · rw [hstep]
            constructor
            · intro hcontr
              exact absurd hcontr (by simp)
            · rintro ⟨-, k', hk', -, hnotin⟩
              injection hk' with h1
              injection h1 with h2
              subst h2
              exact absurd ⟨by omega, hik.2⟩ hnotin
          · intro e he
            rw [hstep] at he
            exact absurd he (by simp)
        · have hstep := applyChangeStep_invalid content cumulativeOffset change hocc hk hik hempty
          refine ⟨by simp [hstep, hempty], ?_, ?_⟩
          · rw [hstep]
            simp only [eq_self_iff_true, true_iff]
            refine ⟨hempty, k, rfl, hk, ?_⟩
            intro hcontr
            exact hik ⟨by omega, hcontr.2⟩
          · intro e he
            rw [hstep] at he
            injection he with h
            subst h
            exact applyChangesLoop_cons_error hstep

/-- C4: on a patch request with well-formed changes, a supplied
`expectedVersion` differing from the document's version fails with
`VersionConflict`; a supplied fingerprint differing from the document's
fails with `FingerprintMismatch` (when the version check passes); a
successful write implies both supplied preconditions matched (AND
semantics); and with neither precondition supplied no conflict check
occurs and the write proceeds to the result of `applyChanges`.  Failures
return an error and no document, so the stored document is untouched. -/
theorem c4_precondition_checks (etagFn : List Char → Int → Nat → List Char) (now : Nat)
    (document : Document) (changes : List Change)
    (expectedVersion : Option Int) (expectedETag : Option (List Char))
    (hvalid : changes.all isValidChange = true) :
    (∀ v, expectedVersion = some v → document.version ≠ v →
      applyChangesToDocument etagFn now document changes expectedVersion expectedETag
        = .error .versionConflict)
    ∧ (∀ t, expectedETag = some t → document.etag ≠ t →
        (∀ v, expectedVersion = some v → document.version = v) →
        applyChangesToDocument etagFn now document changes expectedVersion expectedETag
          = .error .etagMismatch)
    ∧ (∀ d, applyChangesToDocument etagFn now document changes expectedVersion expectedETag
          = .ok d →
        (∀ v, expectedVersion = some v → document.version = v)
          ∧ (∀ t, expectedETag = some t → document.etag = t))
    ∧ (expectedVersion = none → expectedETag = none →
        applyChangesToDocument etagFn now document changes expectedVersion expectedETag
          = ((applyChanges document.content changes).map (fun updatedContent =>
              { content := updatedContent, version := document.version,
                etag := etagFn updatedContent document.version now })).mapError .applyFailed) := by
  have hval : ¬ ¬ changes.all isValidChange = true := by simp [hvalid]
  refine ⟨?_, ?_, ?_, ?_⟩
  · intro v hv hne
    unfold applyChangesToDocument
    rw [if_neg hval, if_pos (by simp [versionCheckFails, hv, hne])]
  · intro t ht hne hvv
    unfold applyChangesToDocument
    rw [if_neg hval, if_neg ?hvcf, if_pos (by simp [etagCheckFails, ht, hne])]
    case hvcf =>
      cases hev : expectedVersion with
      | none => simp [versionCheckFails]
      | some v => simp [versionCheckFails, hvv v hev]
  · intro d hd
    unfold applyChangesToDocument at hd
    rw [if_neg hval] at hd
    by_cases hvc : versionCheckFails document expectedVersion = true
    · rw [if_pos hvc] at hd; exact absurd hd (by simp)
    · rw [if_neg hvc] at hd
      by_cases het : etagCheckFails document expectedETag = true
      · rw [if_pos het] at hd; exact absurd hd (by simp)
      · constructor
        · intro v hv
          rw [hv] at hvc
          simpa [versionCheckFails] using hvc
        · intro t ht
          rw [ht] at het
          simpa [etagCheckFails] using het
  · intro hv ht
    subst hv; subst ht
    unfold applyChangesToDocument
    rw [if_neg hval, if_neg (by simp [versionCheckFails]), if_neg (by simp [etagCheckFails])]
    cases applyChanges document.content changes <;> rfl

/-- C5: `publishDocument` produces exactly one snapshot carrying the
pre-publish version and content, bumps the document version by one,
recomputes the fingerprint against the new version and leaves the content
unchanged; patch application and full update never change the version and
recompute the fingerprint against the unchanged version. -/
theorem c5_publish_version_semantics (etagFn : List Char → Int → Nat → List Char) (now : Nat)
    (document : Document) :
    ((publishDocument etagFn now document).1.version = document.version
      ∧ (publishDocument etagFn now document).1.content = document.content
      ∧ (publishDocument etagFn now document).2.version = document.version + 1
      ∧ (publishDocument etagFn now document).2.content = document.content
      ∧ (publishDocument etagFn now document).2.etag
          = etagFn document.content (document.version + 1) now)
    ∧ (∀ changes expectedVersion expectedETag d,
        applyChangesToDocument etagFn now document changes expectedVersion expectedETag = .ok d →
        d.version = document.version ∧ d.etag = etagFn d.content document.version now)
    ∧ (∀ newContent expectedVersion expectedETag d,
        updateDocument etagFn now document newContent expectedVersion expectedETag = .ok d →
        d.version = document.version ∧ d.etag = etagFn d.content document.version now) := by
  refine ⟨⟨rfl, rfl, rfl, rfl, rfl⟩, ?_, ?_⟩
  · intro changes ev eet d hd
    unfold applyChangesToDocument at hd
    by_cases hval : ¬ changes.all isValidChange = true
    · rw [if_pos hval] at hd; exact absurd hd (by simp)
    · rw [if_neg hval] at hd
      by_cases hvc : versionCheckFails document ev = true
      · rw [if_pos hvc] at hd; exact absurd hd (by simp)
      · rw [if_neg hvc] at hd
        by_cases het : etagCheckFails document eet = true
        · rw [if_pos het] at hd; exact absurd hd (by simp)
        · rw [if_neg het] at hd
          cases hac : applyChanges document.content changes with
          | error e => rw [hac] at hd; exact absurd hd (by simp)
          | ok c =>
            rw [hac] at hd
            injection hd with h
            subst h
            exact ⟨rfl, rfl⟩
  · intro nc ev eet d hd
    unfold updateDocument at hd
    by_cases hvc : versionCheckFails document ev = true
    · rw [if_pos hvc] at hd; exact absurd hd (by simp)
    · rw [if_neg hvc] at hd
      by_cases het : etagCheckFails document eet = true
      · rw [if_pos het] at hd; exact absurd hd (by simp)
      · rw [if_neg het] at hd
        injection hd with h
        subst h
        exact ⟨rfl, rfl⟩

/-- C7: the strategy selector is a pure function over its ordered rules:
an empty selected range always yields range-based (positional) regardless
of every other input, and for a non-empty selection a truthy
`hasRecentRemoteChanges` forces content-based regardless of queue length,
staleness, duplicate occurrences or collaborative mode. -/
theorem c7_strategy_rule_order :
    (∀ context : ChangeContext, context.selection.start = context.selection.end →
      determineChangeStrategy context = .rangeBased)
    ∧ (∀ context : ChangeContext,
        jsSubstring context.documentContent context.selection.start context.selection.end ≠ [] →
        context.hasRecentRemoteChanges = some true →
        determineChangeStrategy context = .contentBased) := by
  constructor
  · intro context hse
    have hempty : jsSubstring context.documentContent
        context.selection.start context.selection.end = [] := by
      rw [hse]
      simp [jsSubstring]
    unfold determineChangeStrategy
    rw [hempty]
    rfl
  · intro context hne hr
    unfold determineChangeStrategy
    rw [if_neg (by simpa [List.length_eq_zero] using hne), if_pos (by simp [truthyBool, hr])]

/-- C8 counterexample: `isValidChange` accepts a change whose
`range.start` exceeds `range.end`, refuting the claim that schema
validation rejects such changes. -/
theorem c8_start_gt_end_accepted :
    ∃ change : Change, change.range.start > change.range.end ∧ isValidChange change = true :=
  ⟨{ operation := .replace, range := { start := 5, «end» := 2 }, text := [] },
    by decide, by decide⟩

/-- C8 amended: `isValidChange` (on well-typed changes) checks only the
`occurrence` constraint (when present it must be a number — not null —
that is `-1` or `≥ 1`); it is independent of the range, so no
`start ≤ end` invariant is enforced at validation time. -/
theorem c8_validation_ignores_range :
    (∀ change : Change, isValidChange change = true
      ↔ (∀ o, change.occurrence = some o → ∃ k, o = some k ∧ (k = -1 ∨ 1 ≤ k)))
    ∧ (∀ (change : Change) (r : Range),
        isValidChange { change with range := r } = isValidChange change) := by
  constructor
  · intro change
    unfold isValidChange
    cases hocc : change.occurrence with
    | none => simp
    | some o =>
      cases o with
      | none => simp
      | some k =>
        simp only [Bool.or_eq_true, beq_iff_eq, decide_eq_true_eq]
        constructor
        · rintro h o' ho'
          injection ho' with h1
          exact ⟨k, h1.symm, h⟩
        · intro h
          obtain ⟨k', hk', hd⟩ := h (some k) rfl
          injection hk' with h2
          subst h2
          exact hd
  · intro change r
    rfl

/-- C10: positional application is total — a sequence of positional
changes never fails for any integer ranges; inserting at or beyond the end
appends, deleting past the end deletes to the end, and a negative start
behaves as 0, by the clamping of the JS substring primitives. -/
theorem c10_positional_clamping :
    (∀ (content : List Char) (cumulativeOffset : Int) (changes : List Change),
      (∀ c ∈ changes, c.occurrence = none ∧ c.contextBefore = none ∧ c.contextAfter = none) →
      ∃ result, applyChangesLoop content cumulativeOffset changes = .ok result)
    ∧ (∀ (content : List Char) (s e : Int) (text : List Char),
        (content.length : Int) ≤ s →
        applyOperation content .insert s e text = content ++ text)
    ∧ (∀ (content : List Char) (s e : Int) (text : List Char),
        0 ≤ s → (content.length : Int) ≤ e →
        applyOperation content .delete s e text = content.take s.toNat)
    ∧ (∀ (content : List Char) (op : Op) (s e : Int) (text : List Char),
        s ≤ 0 →
        applyOperation content op s e text = applyOperation content op 0 e text) := by
  refine ⟨?_, ?_, ?_, ?_⟩
  · intro content cumOff changes
    induction changes generalizing content cumOff with
    | nil => exact fun _ => ⟨content, rfl⟩
    | cons c rest ih =>
      intro h
      obtain ⟨h1, h2, h3⟩ := h c (List.mem_cons_self c rest)
      rw [applyChangesLoop_cons_ok (applyChangeStep_positional content cumOff c h1 h2 h3)]
      exact ih _ _ (fun c' hc' => h c' (List.mem_cons_of_mem _ hc'))
  · intro content s e text hs
    have hcs : clampIdx content.length s = content.length := by
      unfold clampIdx; omega
    have hc0 : clampIdx content.length 0 = 0 := by
      unfold clampIdx; omega
    simp [applyOperation, jsSubstring, jsSubstringFrom, hcs, hc0]
  · intro content s e text hs he
    have hce : clampIdx content.length e = content.length := by
      unfold clampIdx; omega
    have hc0 : clampIdx content.length 0 = 0 := by
      unfold clampIdx; omega
    simp [applyOperation, jsSubstring, jsSubstringFrom, hce, hc0]
    unfold clampIdx
    omega
  · intro content op s e text hs
    have hcs : clampIdx content.length s = 0 := by
      unfold clampIdx; omega
    have hc0 : clampIdx content.length 0 = 0 := by
      unfold clampIdx; omega
    cases op <;> simp [applyOperation, jsSubstring, jsSubstringFrom, hcs, hc0]

lemma addChange_preserves (s : BufferState) (c : List Char) :
    (addChange s c).lastSavedContent = s.lastSavedContent
    ∧ (addChange s c).currentETag = s.currentETag
    ∧ (addChange s c).dispatched = s.dispatched
    ∧ (addChange s c).hasUnflushedChanges = true
    ∧ (addChange s c).currentEditorContent = c := by
  unfold addChange
  by_cases h : s.isFlushInProgress = true <;> simp [h]

lemma bufferRun_burst (s : BufferState) (edits : List (List Char)) (e : List Char) :
    (bufferRun s ((edits ++ [e]).map BufferEvent.addChange)).lastSavedContent
        = s.lastSavedContent
    ∧ (bufferRun s ((edits ++ [e]).map BufferEvent.addChange)).currentETag = s.currentETag
    ∧ (bufferRun s ((edits ++ [e]).map BufferEvent.addChange)).dispatched = s.dispatched
    ∧ (bufferRun s ((edits ++ [e]).map BufferEvent.addChange)).hasUnflushedChanges = true
    ∧ (bufferRun s ((edits ++ [e]).map BufferEvent.addChange)).currentEditorContent = e := by
  induction edits generalizing s with
  | nil =>
    have h := addChange_preserves s e
    simpa [bufferRun, bufferStep] using h
  | cons c cs ih =>
    have hstep : bufferRun s ((c :: cs ++ [e]).map BufferEvent.addChange)
        = bufferRun (addChange s c) ((cs ++ [e]).map BufferEvent.addChange) := rfl
    have h1 := addChange_preserves s c
    have h2 := ih (addChange s c)
    rw [hstep]
    exact ⟨h2.1.trans h1.1, h2.2.1.trans h1.2.1, h2.2.2.1.trans h1.2.2.1,
      h2.2.2.2.1, h2.2.2.2.2⟩

/-- C6: every dispatch performed by `flush` sends exactly one Change — a
Replace over `[0, lastSavedContent.length)` carrying the whole current
editor content — together with the current fingerprint as precondition;
hence any burst of edits followed by a single flush adds exactly one
request to the dispatch log. -/
theorem c6_flush_single_coalesced_change :
    (∀ s : BufferState, s.hasUnflushedChanges = true →
      (flushCall s).dispatched = s.dispatched
        ++ [{ changes := [{ operation := Op.replace,
                            range := { start := 0, «end» := (s.lastSavedContent.length : Int) },
                            text := s.currentEditorContent }],
              expectedETag := etagPrecondition s.currentETag }])
    ∧ (∀ (s : BufferState) (edits : List (List Char)) (e : List Char),
        (bufferRun s ((edits ++ [e]).map BufferEvent.addChange
            ++ [BufferEvent.flushCall])).dispatched
          = s.dispatched
            ++ [{ changes := [{ operation := Op.replace,
                                range := { start := 0, «end» := (s.lastSavedContent.length : Int) },
                                text := e }],
                  expectedETag := etagPrecondition s.currentETag }]) := by
  have part1 : ∀ s : BufferState, s.hasUnflushedChanges = true →
      (flushCall s).dispatched = s.dispatched
        ++ [{ changes := [{ operation := Op.replace,
                            range := { start := 0, «end» := (s.lastSavedContent.length : Int) },
                            text := s.currentEditorContent }],
              expectedETag := etagPrecondition s.currentETag }] := by
    intro s h
    unfold flushCall coalescedChange
    simp [h]
  refine ⟨part1, ?_⟩
  intro s edits e
  have hsplit : bufferRun s ((edits ++ [e]).map BufferEvent.addChange
      ++ [BufferEvent.flushCall])
      = flushCall (bufferRun s ((edits ++ [e]).map BufferEvent.addChange)) := by
    unfold bufferRun
    rw [List.foldl_append]
    rfl
  obtain ⟨hl, he, hd, hu, hc⟩ := bufferRun_burst s edits e
  rw [hsplit, part1 _ hu, hl, he, hd, hc]

/-- C9 (code bug witness): after `addChange`, `flush` (dispatch in
flight), `addChange`, `forceFlush`, two dispatches are simultaneously in
flight for the same buffer — `flush()` has no gate on
`isFlushInProgress`. -/
theorem c9_double_dispatch_trace :
    (bufferRun (initBufferState [])
      [BufferEvent.addChange ['a'], BufferEvent.flushCall,
       BufferEvent.addChange ['b'], BufferEvent.flushCall]).inFlight = 2
    ∧ (bufferRun (initBufferState [])
        [BufferEvent.addChange ['a'], BufferEvent.flushCall,
         BufferEvent.addChange ['b'], BufferEvent.flushCall]).dispatched.length = 2
    ∧ (bufferRun (initBufferState [])
        [BufferEvent.addChange ['a'], BufferEvent.flushCall]).isFlushInProgress = true := by
  refine ⟨rfl, rfl, rfl⟩

/-! # Witnesses -/

theorem c1_occurrence_context_matching_witness :
    (({ operation := Op.replace, range := { start := 0, «end» := 1 }, text := ['X'],
        occurrence := some (some (-1)) } : Change).occurrence ≠ none
      ∨ ({ operation := Op.replace, range := { start := 0, «end» := 1 }, text := ['X'],
           occurrence := some (some (-1)) } : Change).contextBefore ≠ none
      ∨ ({ operation := Op.replace, range := { start := 0, «end» := 1 }, text := ['X'],
           occurrence := some (some (-1)) } : Change).contextAfter ≠ none)
    ∧ (foundOccurrences "aba".toList 0
        { operation := Op.replace, range := { start := 0, «end» := 1 }, text := ['X'],
          occurrence := some (some (-1)) }).Pairwise (· < ·) :=
  ⟨by decide,
   (c1_occurrence_context_matching "aba".toList 0
     { operation := Op.replace, range := { start := 0, «end» := 1 }, text := ['X'],
       occurrence := some (some (-1)) } [] (by decide)).2.1⟩

theorem c2_positional_cumulative_offset_witness :
    applyChangesLoop "ab".toList 0
        [{ operation := Op.insert, range := { start := 1, «end» := 1 }, text := ['X'] }]
      = applyChangesLoop
          (applyOperation "ab".toList Op.insert 1 1 ['X'])
          (0 + (((applyOperation "ab".toList Op.insert 1 1 ['X']).length : Int)
            - (("ab".toList).length : Int))) [] :=
  (c2_positional_cumulative_offset).1 "ab".toList 0
    { operation := Op.insert, range := { start := 1, «end» := 1 }, text := ['X'] } []
    rfl rfl rfl

theorem c3_occurrence_errors_witness :
    (({ operation := Op.replace, range := { start := 0, «end» := 1 }, text := [],
        contextBefore := some ['z'] } : Change).occurrence ≠ none
      ∨ ({ operation := Op.replace, range := { start := 0, «end» := 1 }, text := [],
           contextBefore := some ['z'] } : Change).contextBefore ≠ none
      ∨ ({ operation := Op.replace, range := { start := 0, «end» := 1 }, text := [],
           contextBefore := some ['z'] } : Change).contextAfter ≠ none)
    ∧ (applyChangeStep "ab".toList 0
        { operation := Op.replace, range := { start := 0, «end» := 1 }, text := [],
          contextBefore := some ['z'] } = .error .noMatchingOccurrence
      ↔ foundOccurrences "ab".toList 0
          { operation := Op.replace, range := { start := 0, «end» := 1 }, text := [],
            contextBefore := some ['z'] } = []) :=
  ⟨by decide,
   (c3_occurrence_errors "ab".toList 0
     { operation := Op.replace, range := { start := 0, «end» := 1 }, text := [],
       contextBefore := some ['z'] } [] (by decide)).1⟩

theorem c4_precondition_checks_witness :
    applyChangesToDocument (fun _ _ _ => []) 0
        { content := [], version := 0, etag := [] } [] (some 1) none
      = .error .versionConflict :=
  (c4_precondition_checks (fun _ _ _ => []) 0
      { content := [], version := 0, etag := [] } [] (some 1) none (by decide)).1
    1 rfl (by decide)

theorem c5_publish_version_semantics_witness :
    (publishDocument (fun _ _ _ => []) 0
        { content := ['x'], version := 3, etag := [] }).2.version = 3 + 1
    ∧ ∃ d : Document,
        applyChangesToDocument (fun _ _ _ => []) 0
          { content := ['x'], version := 3, etag := [] } [] none none = .ok d
        ∧ d.version = 3 :=
  ⟨(c5_publish_version_semantics (fun _ _ _ => []) 0
      { content := ['x'], version := 3, etag := [] }).1.2.2.1,
   { content := ['x'], version := 3, etag := [] }, rfl,
   ((c5_publish_version_semantics (fun _ _ _ => []) 0
       { content := ['x'], version := 3, etag := [] }).2.1 [] none none
     { content := ['x'], version := 3, etag := [] } rfl).1⟩

theorem c6_flush_single_coalesced_change_witness :
    (addChange (initBufferState []) ['x']).hasUnflushedChanges = true
    ∧ (flushCall (addChange (initBufferState []) ['x'])).dispatched
      = (addChange (initBufferState []) ['x']).dispatched
        ++ [{ changes := [{ operation := Op.replace,
                            range := { start := 0,
                                       «end» := (((addChange (initBufferState []) ['x']).lastSavedContent).length : Int) },
                            text := (addChange (initBufferState []) ['x']).currentEditorContent }],
              expectedETag := etagPrecondition
                (addChange (initBufferState []) ['x']).currentETag }] :=
  ⟨by decide,
   (c6_flush_single_coalesced_change).1 (addChange (initBufferState []) ['x']) (by decide)⟩

theorem c7_strategy_rule_order_witness :
    determineChangeStrategy { documentContent := "hello".toList,
                              selection := { start := 2, «end» := 2 } } = .rangeBased :=
  (c7_strategy_rule_order).1
    { documentContent := "hello".toList, selection := { start := 2, «end» := 2 } } rfl

theorem c8_validation_ignores_range_witness :
    isValidChange { operation := Op.replace, range := { start := 5, «end» := 2 },
                    text := [] } = true
      ↔ (∀ o, ({ operation := Op.replace, range := { start := 5, «end» := 2 },
                 text := [] } : Change).occurrence = some o
          → ∃ k, o = some k ∧ (k = -1 ∨ 1 ≤ k)) :=
  (c8_validation_ignores_range).1
    { operation := Op.replace, range := { start := 5, «end» := 2 }, text := [] }

theorem c10_positional_clamping_witness :
    (∃ result, applyChangesLoop "ab".toList 0 [] = .ok result)
    ∧ applyOperation "ab".toList Op.insert 5 7 "X".toList = "ab".toList ++ "X".toList
    ∧ applyOperation "ab".toList Op.delete 1 99 [] = ("ab".toList).take (1 : Int).toNat
    ∧ applyOperation "ab".toList Op.replace (-3) 1 "Y".toList
        = applyOperation "ab".toList Op.replace 0 1 "Y".toList :=
  ⟨(c10_positional_clamping).1 "ab".toList 0 [] (by simp),
   (c10_positional_clamping).2.1 "ab".toList 5 7 "X".toList (by decide),
   (c10_positional_clamping).2.2.1 "ab".toList 1 99 [] (by decide) (by decide),
   (c10_positional_clamping).2.2.2 "ab".toList Op.replace (-3) 1 "Y".toList (by decide)⟩

end DocEditor
